import Mathlib

/-!
Verification of the Vaccine-Allocation repository core algorithms.

Shallow embedding over ℚ of:
- `covid/seair.py` (`SEAIR.simulate`): compartmental epidemic sub-day steps;
- `vaccine_allocation_model/MDP.py` (`MarkovDecisionProcess`): run loop,
  exogenous information, control-measure feedback, allocation policies;
- `vaccine_allocation_model/GA.py` (`SimpleGeneticAlgorithm`): mutation swap
  and offspring repair.

Conventions: numpy float arrays become functions `Fin r → Fin a → ℚ`;
stochastic draws (`np.random`) are injected as explicit parameters; the
deterministic mode (`stochastic=False`) is the one embedded.  Where the
Python code can hit an IEEE special value (division by zero producing
`inf`/`nan`), either the theorem carries a hypothesis excluding that input,
or the extended-value model `FVal` below is used to state what the code
actually produces.
-/

namespace VaccineAllocation

/-- Arrays indexed by (region, age group), as in the numpy code. -/
abbrev Arr (r a : ℕ) : Type := Fin r → Fin a → ℚ

variable {r a : ℕ}

/-- `np.clip(x, 0, 1)` on a scalar. -/
def clip01 (q : ℚ) : ℚ := min 1 (max 0 q)

/-- `np.round` on a scalar: round half to even (banker's rounding), result as an integer. -/
def npRound (q : ℚ) : ℤ :=
  let f := ⌊q⌋
  let frac := q - f
  if frac < 1/2 then f
  else if 1/2 < frac then f + 1
  else if f % 2 = 0 then f else f + 1

/-- Python `int(...)` applied to a float: truncation toward zero. -/
def pyInt (q : ℚ) : ℤ := if 0 ≤ q then ⌊q⌋ else -⌊-q⌋

theorem npRound_pos {q : ℚ} (h : 0 < npRound q) : 0 < q := by
  unfold npRound at h
  simp only [] at h
  have hfl : (⌊q⌋ : ℚ) ≤ q := Int.floor_le q
  split_ifs at h with h1 h2 h3
  · have : (1 : ℚ) ≤ (⌊q⌋ : ℚ) := by exact_mod_cast h
    linarith
  · have : (0 : ℚ) ≤ (⌊q⌋ : ℚ) := by
      have : (1 : ℤ) ≤ ⌊q⌋ + 1 := h
      have : (0 : ℤ) ≤ ⌊q⌋ := by omega
      exact_mod_cast this
    linarith
  · have : (1 : ℚ) ≤ (⌊q⌋ : ℚ) := by exact_mod_cast h
    linarith
  · have : (0 : ℚ) ≤ (⌊q⌋ : ℚ) := by
      have : (1 : ℤ) ≤ ⌊q⌋ + 1 := h
      have : (0 : ℤ) ≤ ⌊q⌋ := by omega
      exact_mod_cast this
    have hfrac : ¬ (q - ⌊q⌋ < 1/2) := h1
    linarith

theorem npRound_zero : npRound 0 = 0 := by
  unfold npRound
  rw [Int.floor_zero]
  norm_num

theorem npRound_one : npRound 1 = 1 := by
  unfold npRound
  rw [Int.floor_one]
  norm_num

/-! ### Genetic algorithm: offspring repair (`SimpleGeneticAlgorithm.repair_offsprings`)

`GA.py` lines 270-280: rows (over the last axis, the weight slots) that sum
to zero are reset to `[1,0,0,0]`, then every row is divided by its sum.
Gene tensors have shape `(3,4,4)` (`Individual.create_genes`). -/

/-- Embedding of `repair_offsprings` acting on one gene tensor. -/
def repairGenes (g : Fin 3 → Fin 4 → Fin 4 → ℚ) : Fin 3 → Fin 4 → Fin 4 → ℚ :=
  let g1 : Fin 3 → Fin 4 → Fin 4 → ℚ := fun i j k =>
    if (∑ k2, g i j k2) = 0 then (if k = 0 then 1 else 0) else g i j k
  fun i j k => g1 i j k / (∑ k2, g1 i j k2)

/-! ### Genetic algorithm: mutation swap (`SimpleGeneticAlgorithm.mutation`)

`GA.py` lines 249-268: repeatedly swaps two cells `(i1,j1,k1)` and
`(i2,j2,k2)` of the gene tensor, with `i1 ≠ i2`, `j1 ≠ j2`, `k1 ≠ k2`
forced by the retry loops. -/

/-- Index of one cell of the `(3,4,4)` gene tensor. -/
abbrev GIdx : Type := Fin 3 × Fin 4 × Fin 4

/-- One pairwise element swap performed by `mutation`. -/
def swapCells (g : GIdx → ℚ) (c1 c2 : GIdx) : GIdx → ℚ :=
  fun t => if t = c1 then g c2 else if t = c2 then g c1 else g t

/-- Sum of one (wave-state, occurrence-count) row of the gene tensor. -/
def rowSum (g : GIdx → ℚ) (i : Fin 3) (j : Fin 4) : ℚ := ∑ k, g (i, j, k)

/-- Sum of all entries of the gene tensor. -/
def totalSum (g : GIdx → ℚ) : ℚ := ∑ t, g t

/-- A concrete gene tensor with a single 1 at cell (0,0,0), used to exhibit
that a mutation swap moves mass between rows. -/
def geneEx : GIdx → ℚ := fun t => if t = ((0 : Fin 3), (0 : Fin 4), (0 : Fin 4)) then 1 else 0

/-- C7: after `repair_offsprings`, every (wave-state, wave-occurrence-count) weight
row of an offspring tensor sums to 1 (exactly, over ℚ, hence within any floating
tolerance), and a row whose sum is zero is first reset to the default one-hot
distribution `[1,0,0,0]`, which the subsequent renormalization leaves unchanged. -/
theorem repair_offsprings_rows_sum_to_one (g : Fin 3 → Fin 4 → Fin 4 → ℚ)
    (i : Fin 3) (j : Fin 4) :
    (∑ k, repairGenes g i j k) = 1 ∧
    ((∑ k, g i j k) = 0 → ∀ k, repairGenes g i j k = if k = 0 then 1 else 0) := by
  by_cases h : (∑ k2, g i j k2) = 0
  · constructor
    · simp only [repairGenes, h, eq_self_iff_true, if_true]
      simp [Fin.sum_univ_four]
    · intro _ k
      simp only [repairGenes, h, eq_self_iff_true, if_true]
      simp [Fin.sum_univ_four]
  · refine ⟨?_, fun h0 => absurd h0 h⟩
    simp only [repairGenes, h, if_false]
    rw [← Finset.sum_div, div_self h]

/-- Witness for C7 at a concrete offspring tensor whose rows all sum to zero:
every repaired row is the one-hot distribution and sums to 1. -/
theorem repair_offsprings_rows_sum_to_one_witness :
    (∑ k, repairGenes (fun _ _ _ => 0) 0 0 k) = 1 ∧
    (∀ k, repairGenes (fun _ _ _ => (0 : ℚ)) 0 0 k = if k = 0 then 1 else 0) :=
  ⟨(repair_offsprings_rows_sum_to_one (fun _ _ _ => 0) 0 0).1,
   (repair_offsprings_rows_sum_to_one (fun _ _ _ => 0) 0 0).2 (by simp)⟩

/-- C8 counterexample: one mutation swap between cells (0,0,0) and (1,1,1) —
indices that satisfy the mutation loop's constraints `i1 ≠ i2`, `j1 ≠ j2`,
`k1 ≠ k2` — moves the unique unit weight out of row (0,0), so the sum of that
row changes from 1 to 0: the swap does not preserve each row's weight sum. -/
theorem mutation_swap_row_sum_not_preserved :
    rowSum (swapCells geneEx (0, 0, 0) (1, 1, 1)) 0 0 ≠ rowSum geneEx 0 0 ∧
    rowSum (swapCells geneEx (0, 0, 0) (1, 1, 1)) 0 0 = 0 ∧ rowSum geneEx 0 0 = 1 := by
  have h0 : rowSum (swapCells geneEx (0, 0, 0) (1, 1, 1)) 0 0 = 0 := by
    simp [rowSum, swapCells, geneEx, Fin.sum_univ_four, Prod.ext_iff]
  have h1 : rowSum geneEx 0 0 = 1 := by
    simp [rowSum, geneEx, Fin.sum_univ_four, Prod.ext_iff]
  exact ⟨by rw [h0, h1]; norm_num, h0, h1⟩

/-- C8 (amended): each pairwise element swap performed during mutation preserves
the total sum of all weights of the tensor (equivalently, the multiset of gene
values); individual (wave-state, occurrence-count) row sums are in general not
preserved, since the two swapped cells always lie in different rows. -/
theorem mutation_swap_preserves_total_sum (g : GIdx → ℚ) (c1 c2 : GIdx) :
    totalSum (swapCells g c1 c2) = totalSum g := by
  unfold totalSum
  have hfun : ∀ t, swapCells g c1 c2 t = g (Equiv.swap c1 c2 t) := by
    intro t
    rw [Equiv.swap_apply_def]
    simp only [swapCells]
    by_cases h1 : t = c1
    · simp [h1]
    · by_cases h2 : t = c2
      · by_cases h3 : c2 = c1 <;> simp [h1, h2, h3]
      · simp [h1, h2]
  calc ∑ t, swapCells g c1 c2 t
      = ∑ t, g (Equiv.swap c1 c2 t) := Finset.sum_congr rfl (fun t _ => hfun t)
    _ = ∑ t, g t := Equiv.sum_comp (Equiv.swap c1 c2) g

/-! ### MDP allocation policies (`MDP.py` lines 152-294)

Every policy computes the per-cell remaining vaccination demand
`demand = S - (1 - efficacy) * V` and the available supply
`M = state.vaccines_available`.  The two-stage policies return `Option`;
`none` marks exactly the executions whose returned array is poisoned by a
0/0 = NaN division (see `twoStagePolicy` below) — when
`find_prioritized_age_group` returns `None`, numpy interprets the `None`
index as `np.newaxis` and the policy still returns, nothing is raised.  The
random draws of `_random_policy` are injected as an explicit list of
(region, age-group) picks; the Python `while M > 0` loop is embedded as
recursion on that list, which covers every terminating execution of the
loop. -/

/-- Remaining vaccination demand per (region, age group):
`demand = state.S - (1-config.efficacy)*state.V`. -/
def demandOf (eps : ℚ) (S V : Arr r a) : Arr r a := fun i j => S i j - (1 - eps) * V i j

/-- `_no_vaccines`: the all-zero allocation. -/
def noVaccinesPolicy (r a : ℕ) : Arr r a := fun _ _ => 0

/-- The allocation loop of `_random_policy`: while `M > 0`, pick a cell,
allocate `min(M, demand[cell], 1)` there, decrement `M` and the demand.
Returns the final (demand, allocation) pair. -/
def randomAlloc : List (Fin r × Fin a) → ℚ → Arr r a → Arr r a → (Arr r a × Arr r a)
  | [], _, demand, alloc => (demand, alloc)
  | pick :: rest, M, demand, alloc =>
    if 0 < M then
      let q := min (min M (demand pick.1 pick.2)) 1
      randomAlloc rest (M - q)
        (fun i j => if i = pick.1 ∧ j = pick.2 then demand i j - q else demand i j)
        (fun i j => if i = pick.1 ∧ j = pick.2 then alloc i j + q else alloc i j)
    else (demand, alloc)

/-- `_random_policy`: run the allocation loop, then
`decision = np.minimum(demand, vaccine_allocation).clip(min=0)` where `demand`
is the decremented demand. -/
def randomPolicy (picks : List (Fin r × Fin a)) (eps M : ℚ) (S V : Arr r a) : Arr r a :=
  let p := randomAlloc picks M (demandOf eps S V) (fun _ _ => 0)
  fun i j => max 0 (min (p.1 i j) (p.2 i j))

/-- `_susceptible_based_policy`: allocate `M * demand / np.sum(demand)`, then
`decision = np.minimum(demand, vaccine_allocation).clip(min=0)`. -/
def susceptibleBasedPolicy (eps M : ℚ) (S V : Arr r a) : Arr r a :=
  if 0 < M then
    let demand := demandOf eps S V
    let total := ∑ i, ∑ j, demand i j
    let alloc : Arr r a := fun i j => M * demand i j / total
    fun i j => max 0 (min (demand i j) (alloc i j))
  else fun _ _ => 0

/-- `_infection_based_policy`: distribute `M` across regions proportionally to
their share of total infections, then across age groups proportionally to the
region's demand row; falls back to `_susceptible_based_policy` when there are
no infections. -/
def infectionBasedPolicy (eps M : ℚ) (S V Inf : Arr r a) : Arr r a :=
  if 0 < M then
    if 0 < ∑ i, ∑ j, Inf i j then
      let demand := demandOf eps S V
      let totalInfection := ∑ i, ∑ j, Inf i j
      let regional : Fin r → ℚ := fun i => M * ((∑ j, Inf i j) / totalInfection)
      let alloc : Arr r a := fun i j => demand i j * regional i / (∑ j2, demand i j2)
      fun i j => max 0 (min (demand i j) (alloc i j))
    else susceptibleBasedPolicy eps M S V
  else fun _ _ => 0

/-- The common body of `_adults_first_policy` and `_oldest_first_policy`,
with the prioritized-age-group search injected as `find`.  When `M` exceeds
the whole demand of the first prioritized group, that group is fully served,
its demand column is zeroed, and a second group is searched; the remaining
supply is spread over the second group proportionally to its demand.  In both
branches the final decision is
`np.minimum(demand, vaccine_allocation).clip(min=0)` with `demand` already
decremented at the allocated columns.

When `find_prioritized_age_group` returns `None`, numpy treats the index
`None` as `np.newaxis`: `demand[:, None]` is a view of the whole demand array
(shape (r, 1, a)), so `total_age_group_demand` becomes the sum of the whole
array, and the assignment `allocation[:, None] = age_allocation` writes every
column of the allocation.  Nothing is raised.  Concretely:
- first search `None`, `M ≤ np.sum(demand)`: the tail spreads `M`
  demand-proportionally over all cells (all age groups, including group 0);
- first search `None`, `M > np.sum(demand)`: the first stage allocates the
  whole demand array and zeroes it, the repeated search again yields `None`,
  and the tail computes `M' * 0 / 0`, returning an all-NaN decision;
- second search `None`: the tail divides the remaining demand array by its
  total `np.sum(demand)`; a zero total gives 0/0 = NaN on the (always
  present) zeroed first-stage column, poisoning the returned array, while a
  nonzero total spreads the remaining supply over all cells (overwriting the
  first-stage column with `M' * 0 / total = 0`).
In this embedding `none` marks exactly those executions whose returned array
contains NaN from that 0/0; every other execution returns `some` of the array
the Python code returns. -/
def twoStagePolicy (find : Arr r a → Option (Fin a)) (eps M : ℚ) (S V : Arr r a) :
    Option (Arr r a) :=
  if 0 < M then
    let demand0 := demandOf eps S V
    match find demand0 with
    | none =>
      let T0 := ∑ i, ∑ j, demand0 i j
      if T0 < M then
        none
      else
        let alloc : Arr r a := fun i j => M * demand0 i j / T0
        let demand2 : Arr r a := fun i j => demand0 i j - alloc i j
        some (fun i j => max 0 (min (demand2 i j) (alloc i j)))
    | some g1 =>
      let T1 := ∑ i, demand0 i g1
      if T1 < M then
        let demand1 : Arr r a := fun i j => if j = g1 then 0 else demand0 i j
        match find demand1 with
        | none =>
          let T2 := ∑ i, ∑ j, demand1 i j
          if T2 = 0 then
            none
          else
            let M2 := M - T1
            let alloc : Arr r a := fun i j => M2 * demand1 i j / T2
            let demand2 : Arr r a := fun i j => demand1 i j - alloc i j
            some (fun i j => max 0 (min (demand2 i j) (alloc i j)))
        | some g2 =>
          let M2 := M - T1
          let T2 := ∑ i, demand1 i g2
          let alloc : Arr r a := fun i j =>
            if j = g1 then demand0 i g1 else if j = g2 then M2 * demand1 i g2 / T2 else 0
          let demand2 : Arr r a := fun i j =>
            if j = g2 then demand1 i j - alloc i j else demand1 i j
          some (fun i j => max 0 (min (demand2 i j) (alloc i j)))
      else
        let alloc : Arr r a := fun i j => if j = g1 then M * demand0 i g1 / T1 else 0
        let demand2 : Arr r a := fun i j =>
          if j = g1 then demand0 i j - alloc i j else demand0 i j
        some (fun i j => max 0 (min (demand2 i j) (alloc i j)))
  else some (fun _ _ => 0)

/-- The fixed priority order `[3,4,5,6,7,2,1,0]` of `_adults_first_policy`
(hardcoded for 8 age groups). -/
def adultsOrder : List (Fin 8) := [3, 4, 5, 6, 7, 2, 1, 0]

/-- `find_prioritized_age_group` of `_adults_first_policy`: first group in the
priority order whose demand column has positive sum. -/
def findAdults (demand : Arr r 8) : Option (Fin 8) :=
  adultsOrder.find? (fun g => decide (0 < ∑ i, demand i g))

/-- The descending order `range(n_age_groups-1, 0, -1)` of
`_oldest_first_policy`: all age groups except group 0, oldest first. -/
def oldestOrder (a : ℕ) : List (Fin a) :=
  ((List.finRange a).filter (fun g => decide (1 ≤ g.val))).reverse

/-- `find_prioritized_age_group` of `_oldest_first_policy`: oldest group whose
demand column sum rounds (np.round, half-to-even) to a positive integer. -/
def findOldest (demand : Arr r a) : Option (Fin a) :=
  (oldestOrder a).find? (fun g => decide (0 < npRound (∑ i, demand i g)))

/-- `_adults_first_policy` (8 age groups, as hardcoded in the source). -/
def adultsFirstPolicy (eps M : ℚ) (S V : Arr r 8) : Option (Arr r 8) :=
  twoStagePolicy findAdults eps M S V

/-- `_oldest_first_policy`. -/
def oldestFirstPolicy (eps M : ℚ) (S V : Arr r a) : Option (Arr r a) :=
  twoStagePolicy findOldest eps M S V

/-- The six allocation policies registered in `MarkovDecisionProcess.__init__`. -/
inductive PolicyTag where
  | noVaccines
  | random
  | susceptibleBased
  | infectionBased
  | adultsFirst
  | oldestFirst
deriving DecidableEq, Repr

/-- Dispatch of the six policies over a common signature (8 age groups, since
`_adults_first_policy` hardcodes that many). -/
def applyPolicy (tag : PolicyTag) (picks : List (Fin r × Fin 8)) (eps M : ℚ)
    (S V Inf : Arr r 8) : Option (Arr r 8) :=
  match tag with
  | .noVaccines => some (noVaccinesPolicy r 8)
  | .random => some (randomPolicy picks eps M S V)
  | .susceptibleBased => some (susceptibleBasedPolicy eps M S V)
  | .infectionBased => some (infectionBasedPolicy eps M S V Inf)
  | .adultsFirst => adultsFirstPolicy eps M S V
  | .oldestFirst => oldestFirstPolicy eps M S V

/-! Helper lemmas about the final `np.minimum(demand, allocation).clip(min=0)`
step shared by all policies, and about sums of pointwise updates. -/

theorem clipMin_le_alloc {dem al : ℚ} (h : 0 ≤ al) : max 0 (min dem al) ≤ al :=
  max_le h (min_le_right _ _)

theorem clipMin_le_bound {dem al d : ℚ} (hdem : dem ≤ d) (hd : 0 ≤ d) :
    max 0 (min dem al) ≤ d :=
  max_le hd (le_trans (min_le_left _ _) hdem)

theorem sum_update_cell (f : Arr r a) (i0 : Fin r) (j0 : Fin a) (q : ℚ) :
    (∑ i, ∑ j, (if i = i0 ∧ j = j0 then f i j + q else f i j)) = (∑ i, ∑ j, f i j) + q := by
  have hrow : ∀ i, (∑ j, if i = i0 ∧ j = j0 then f i j + q else f i j)
      = (∑ j, f i j) + (if i = i0 then q else 0) := by
    intro i
    by_cases hi : i = i0
    · have hsplit : ∀ j, (if i = i0 ∧ j = j0 then f i j + q else f i j)
          = f i j + (if j = j0 then q else 0) := by
        intro j
        by_cases hj : j = j0 <;> simp [hi, hj]
      rw [Finset.sum_congr rfl (fun j _ => hsplit j), Finset.sum_add_distrib, if_pos hi]
      simp
    · have hsplit : ∀ j, (if i = i0 ∧ j = j0 then f i j + q else f i j) = f i j := by
        intro j; simp [hi]
      rw [Finset.sum_congr rfl (fun j _ => hsplit j), if_neg hi, add_zero]
  rw [Finset.sum_congr rfl (fun i _ => hrow i), Finset.sum_add_distrib]
  simp

theorem sum_one_col (x : Fin a → ℚ) (g : Fin a) :
    (∑ j, (if j = g then x j else 0)) = x g := by
  simp

theorem sum_two_cols (x y : Fin a → ℚ) {g1 g2 : Fin a} (hne : g2 ≠ g1) :
    (∑ j, (if j = g1 then x j else if j = g2 then y j else 0)) = x g1 + y g2 := by
  have hsplit : ∀ j, (if j = g1 then x j else if j = g2 then y j else 0)
      = (if j = g1 then x j else 0) + (if j = g2 then y j else 0) := by
    intro j
    by_cases h1 : j = g1
    · have hg : ¬ g1 = g2 := fun hh => hne hh.symm
      simp [h1, hg]
    · by_cases h2 : j = g2 <;> simp [h1, h2, hne]
  rw [Finset.sum_congr rfl (fun j _ => hsplit j), Finset.sum_add_distrib]
  simp

/-- A demand-proportional spread of `M` over all cells sums to `M`. -/
theorem sum_proportional (M : ℚ) (d : Arr r a) (hne : (∑ i, ∑ j, d i j) ≠ 0) :
    (∑ i, ∑ j, M * d i j / (∑ i2, ∑ j2, d i2 j2)) = M := by
  have hcell : ∀ (i : Fin r) (j : Fin a), M * d i j / (∑ i2, ∑ j2, d i2 j2)
      = (M / (∑ i2, ∑ j2, d i2 j2)) * d i j := fun i j => by ring
  rw [Finset.sum_congr rfl (fun i _ => Finset.sum_congr rfl (fun j _ => hcell i j))]
  simp only [← Finset.mul_sum]
  exact div_mul_cancel₀ M hne

/-- Invariant of the `_random_policy` loop: demand stays non-negative, the
allocation stays non-negative, demand plus allocation is conserved cellwise,
and the total allocation grows by at most the remaining supply. -/
theorem randomAlloc_spec (picks : List (Fin r × Fin a)) (M : ℚ) (demand alloc : Arr r a)
    (hdem : ∀ i j, 0 ≤ demand i j) (halloc : ∀ i j, 0 ≤ alloc i j) :
    (∀ i j, 0 ≤ (randomAlloc picks M demand alloc).1 i j) ∧
    (∀ i j, 0 ≤ (randomAlloc picks M demand alloc).2 i j) ∧
    (∀ i j, (randomAlloc picks M demand alloc).1 i j
      + (randomAlloc picks M demand alloc).2 i j = demand i j + alloc i j) ∧
    ((∑ i, ∑ j, (randomAlloc picks M demand alloc).2 i j)
      ≤ (∑ i, ∑ j, alloc i j) + max M 0) := by
  induction picks generalizing M demand alloc with
  | nil =>
    refine ⟨hdem, halloc, fun i j => rfl, ?_⟩
    show (∑ i, ∑ j, alloc i j) ≤ (∑ i, ∑ j, alloc i j) + max M 0
    have : (0:ℚ) ≤ max M 0 := le_max_right _ _
    linarith
  | cons pick rest ih =>
    by_cases hM : 0 < M
    · rw [randomAlloc, if_pos hM]
      set q := min (min M (demand pick.1 pick.2)) 1 with hq
      have hq0 : 0 ≤ q := by
        apply le_min (le_min (le_of_lt hM) (hdem _ _)) (by norm_num)
      have hqM : q ≤ M := le_trans (min_le_left _ _) (min_le_left _ _)
      have hqd : q ≤ demand pick.1 pick.2 := le_trans (min_le_left _ _) (min_le_right _ _)
      have hdem2 : ∀ i j, 0 ≤ (fun i j => if i = pick.1 ∧ j = pick.2
          then demand i j - q else demand i j) i j := by
        intro i j
        show 0 ≤ if i = pick.1 ∧ j = pick.2 then demand i j - q else demand i j
        by_cases hc : i = pick.1 ∧ j = pick.2
        · rw [if_pos hc]
          obtain ⟨h1, h2⟩ := hc
          subst h1; subst h2
          linarith
        · rw [if_neg hc]; exact hdem i j
      have halloc2 : ∀ i j, 0 ≤ (fun i j => if i = pick.1 ∧ j = pick.2
          then alloc i j + q else alloc i j) i j := by
        intro i j
        show 0 ≤ if i = pick.1 ∧ j = pick.2 then alloc i j + q else alloc i j
        by_cases hc : i = pick.1 ∧ j = pick.2
        · rw [if_pos hc]
          have := halloc i j
          linarith
        · rw [if_neg hc]; exact halloc i j
      obtain ⟨p1, p2, p3, p4⟩ := ih (M - q) _ _ hdem2 halloc2
      refine ⟨p1, p2, fun i j => ?_, ?_⟩
      · rw [p3 i j]
        show (if i = pick.1 ∧ j = pick.2 then demand i j - q else demand i j)
          + (if i = pick.1 ∧ j = pick.2 then alloc i j + q else alloc i j)
          = demand i j + alloc i j
        by_cases hc : i = pick.1 ∧ j = pick.2
        · rw [if_pos hc, if_pos hc]; ring
        · rw [if_neg hc, if_neg hc]
      · refine le_trans p4 ?_
        have hupd : (∑ i, ∑ j, ((fun i j => if i = pick.1 ∧ j = pick.2
            then alloc i j + q else alloc i j) i j))
            = (∑ i, ∑ j, alloc i j) + q := sum_update_cell alloc pick.1 pick.2 q
        rw [hupd]
        have h1 : max (M - q) 0 = M - q := max_eq_left (by linarith)
        have h2 : max M 0 = M := max_eq_left (le_of_lt hM)
        rw [h1, h2]
        linarith
    · rw [randomAlloc, if_neg hM]
      refine ⟨hdem, halloc, fun i j => rfl, ?_⟩
      show (∑ i, ∑ j, alloc i j) ≤ (∑ i, ∑ j, alloc i j) + max M 0
      have : (0:ℚ) ≤ max M 0 := le_max_right _ _
      linarith

theorem randomPolicy_bounds (picks : List (Fin r × Fin a)) (eps M : ℚ) (S V : Arr r a)
    (hM : 0 ≤ M) (hdem : ∀ i j, 0 ≤ demandOf eps S V i j) :
    ((∑ i, ∑ j, randomPolicy picks eps M S V i j) ≤ M) ∧
    (∀ i j, randomPolicy picks eps M S V i j ≤ demandOf eps S V i j) := by
  obtain ⟨p1, p2, p3, p4⟩ :=
    randomAlloc_spec picks M (demandOf eps S V) (fun _ _ => 0) hdem (fun _ _ => le_refl 0)
  constructor
  · have hcell : ∀ (i : Fin r) (j : Fin a), randomPolicy picks eps M S V i j
        ≤ (randomAlloc picks M (demandOf eps S V) (fun _ _ => 0)).2 i j :=
      fun i j => clipMin_le_alloc (p2 i j)
    calc (∑ i, ∑ j, randomPolicy picks eps M S V i j)
        ≤ (∑ i, ∑ j, (randomAlloc picks M (demandOf eps S V) (fun _ _ => 0)).2 i j) :=
          Finset.sum_le_sum (fun i _ => Finset.sum_le_sum (fun j _ => hcell i j))
      _ ≤ (∑ _i : Fin r, ∑ _j : Fin a, (0:ℚ)) + max M 0 := p4
      _ = M := by simp [max_eq_left hM]
  · intro i j
    apply clipMin_le_bound _ (hdem i j)
    have h3 := p3 i j
    have h2 := p2 i j
    linarith

theorem susceptibleBased_bounds (eps M : ℚ) (S V : Arr r a)
    (hM : 0 ≤ M) (hdem : ∀ i j, 0 ≤ demandOf eps S V i j)
    (htot : 0 < ∑ i, ∑ j, demandOf eps S V i j) :
    ((∑ i, ∑ j, susceptibleBasedPolicy eps M S V i j) ≤ M) ∧
    (∀ i j, susceptibleBasedPolicy eps M S V i j ≤ demandOf eps S V i j) := by
  have hTne : (∑ i, ∑ j, demandOf eps S V i j) ≠ 0 := ne_of_gt htot
  by_cases hM0 : 0 < M
  · have hunfold : susceptibleBasedPolicy eps M S V = fun i j =>
        max 0 (min (demandOf eps S V i j)
          (M * demandOf eps S V i j / (∑ i2, ∑ j2, demandOf eps S V i2 j2))) := by
      simp only [susceptibleBasedPolicy, if_pos hM0]
    have hallocnn : ∀ (i : Fin r) (j : Fin a),
        0 ≤ M * demandOf eps S V i j / (∑ i2, ∑ j2, demandOf eps S V i2 j2) :=
      fun i j => div_nonneg (mul_nonneg hM (hdem i j)) (le_of_lt htot)
    constructor
    · rw [hunfold]
      have hsum : (∑ i, ∑ j, M * demandOf eps S V i j
          / (∑ i2, ∑ j2, demandOf eps S V i2 j2)) = M := by
        have hcell : ∀ (i : Fin r) (j : Fin a),
            M * demandOf eps S V i j / (∑ i2, ∑ j2, demandOf eps S V i2 j2)
            = (M / (∑ i2, ∑ j2, demandOf eps S V i2 j2)) * demandOf eps S V i j := by
          intro i j; ring
        rw [Finset.sum_congr rfl (fun i _ => Finset.sum_congr rfl (fun j _ => hcell i j))]
        simp only [← Finset.mul_sum]
        exact div_mul_cancel₀ M hTne
      calc (∑ i, ∑ j, max 0 (min (demandOf eps S V i j)
            (M * demandOf eps S V i j / (∑ i2, ∑ j2, demandOf eps S V i2 j2))))
          ≤ (∑ i, ∑ j, M * demandOf eps S V i j / (∑ i2, ∑ j2, demandOf eps S V i2 j2)) :=
            Finset.sum_le_sum (fun i _ => Finset.sum_le_sum
              (fun j _ => clipMin_le_alloc (hallocnn i j)))
        _ = M := hsum
    · intro i j
      rw [hunfold]
      exact clipMin_le_bound (le_refl _) (hdem i j)
  · have hunfold : susceptibleBasedPolicy eps M S V = fun _ _ => (0:ℚ) := by
      simp only [susceptibleBasedPolicy, if_neg hM0]
    rw [hunfold]
    exact ⟨by simpa using hM, fun i j => hdem i j⟩

theorem infectionBased_bounds (eps M : ℚ) (S V Inf : Arr r a)
    (hM : 0 ≤ M) (hInf : ∀ i j, 0 ≤ Inf i j)
    (hdem : ∀ i j, 0 ≤ demandOf eps S V i j)
    (hrow : ∀ i, 0 < ∑ j, demandOf eps S V i j)
    (htot : 0 < ∑ i, ∑ j, demandOf eps S V i j) :
    ((∑ i, ∑ j, infectionBasedPolicy eps M S V Inf i j) ≤ M) ∧
    (∀ i j, infectionBasedPolicy eps M S V Inf i j ≤ demandOf eps S V i j) := by
  by_cases hM0 : 0 < M
  · by_cases hI0 : 0 < ∑ i, ∑ j, Inf i j
    · have hunfold : infectionBasedPolicy eps M S V Inf = fun i j =>
          max 0 (min (demandOf eps S V i j)
            (demandOf eps S V i j * (M * ((∑ j2, Inf i j2) / (∑ i2, ∑ j2, Inf i2 j2)))
              / (∑ j2, demandOf eps S V i j2))) := by
        simp only [infectionBasedPolicy, if_pos hM0, if_pos hI0]
      have hregnn : ∀ i : Fin r, 0 ≤ M * ((∑ j2, Inf i j2) / (∑ i2, ∑ j2, Inf i2 j2)) :=
        fun i => mul_nonneg hM (div_nonneg
          (Finset.sum_nonneg (fun j _ => hInf i j)) (le_of_lt hI0))
      have hallocnn : ∀ (i : Fin r) (j : Fin a),
          0 ≤ demandOf eps S V i j * (M * ((∑ j2, Inf i j2) / (∑ i2, ∑ j2, Inf i2 j2)))
            / (∑ j2, demandOf eps S V i j2) :=
        fun i j => div_nonneg (mul_nonneg (hdem i j) (hregnn i)) (le_of_lt (hrow i))
      constructor
      · rw [hunfold]
        have hrowsum : ∀ i : Fin r, (∑ j, demandOf eps S V i j
              * (M * ((∑ j2, Inf i j2) / (∑ i2, ∑ j2, Inf i2 j2)))
              / (∑ j2, demandOf eps S V i j2))
            = M * ((∑ j2, Inf i j2) / (∑ i2, ∑ j2, Inf i2 j2)) := by
          intro i
          have hcell : ∀ j : Fin a, demandOf eps S V i j
              * (M * ((∑ j2, Inf i j2) / (∑ i2, ∑ j2, Inf i2 j2)))
              / (∑ j2, demandOf eps S V i j2)
              = (M * ((∑ j2, Inf i j2) / (∑ i2, ∑ j2, Inf i2 j2))
                / (∑ j2, demandOf eps S V i j2)) * demandOf eps S V i j := by
            intro j; ring
          rw [Finset.sum_congr rfl (fun j _ => hcell j), ← Finset.mul_sum,
            div_mul_cancel₀ _ (ne_of_gt (hrow i))]
        have htotreg : (∑ i, M * ((∑ j2, Inf i j2) / (∑ i2, ∑ j2, Inf i2 j2))) = M := by
          have hcell : ∀ i : Fin r, M * ((∑ j2, Inf i j2) / (∑ i2, ∑ j2, Inf i2 j2))
              = (M / (∑ i2, ∑ j2, Inf i2 j2)) * (∑ j2, Inf i j2) := by
            intro i; ring
          rw [Finset.sum_congr rfl (fun i _ => hcell i), ← Finset.mul_sum,
            div_mul_cancel₀ M (ne_of_gt hI0)]
        calc (∑ i, ∑ j, max 0 (min (demandOf eps S V i j)
              (demandOf eps S V i j * (M * ((∑ j2, Inf i j2) / (∑ i2, ∑ j2, Inf i2 j2)))
                / (∑ j2, demandOf eps S V i j2))))
            ≤ (∑ i, ∑ j, demandOf eps S V i j
                * (M * ((∑ j2, Inf i j2) / (∑ i2, ∑ j2, Inf i2 j2)))
                / (∑ j2, demandOf eps S V i j2)) :=
              Finset.sum_le_sum (fun i _ => Finset.sum_le_sum
                (fun j _ => clipMin_le_alloc (hallocnn i j)))
          _ = (∑ i, M * ((∑ j2, Inf i j2) / (∑ i2, ∑ j2, Inf i2 j2))) :=
              Finset.sum_congr rfl (fun i _ => hrowsum i)
          _ = M := htotreg
      · intro i j
        rw [hunfold]
        exact clipMin_le_bound (le_refl _) (hdem i j)
    · have hunfold : infectionBasedPolicy eps M S V Inf = susceptibleBasedPolicy eps M S V := by
        simp only [infectionBasedPolicy, if_pos hM0, if_neg hI0]
      rw [hunfold]
      exact susceptibleBased_bounds eps M S V hM hdem htot
  · have hunfold : infectionBasedPolicy eps M S V Inf = fun _ _ => (0:ℚ) := by
      simp only [infectionBasedPolicy, if_neg hM0]
    rw [hunfold]
    exact ⟨by simpa using hM, fun i j => hdem i j⟩

theorem findAdults_pos {d : Arr r 8} {g : Fin 8} (h : findAdults d = some g) :
    0 < ∑ i, d i g := by
  unfold findAdults at h
  have hp := List.find?_some h
  simp only [decide_eq_true_eq] at hp
  exact hp

theorem findOldest_pos {d : Arr r a} {g : Fin a} (h : findOldest d = some g) :
    0 < ∑ i, d i g := by
  unfold findOldest at h
  have hp := List.find?_some h
  simp only [decide_eq_true_eq] at hp
  exact npRound_pos hp

theorem findOldest_val_pos {d : Arr r a} {g : Fin a} (h : findOldest d = some g) :
    1 ≤ g.val := by
  unfold findOldest at h
  have hmem : g ∈ oldestOrder a := List.mem_of_find?_eq_some h
  unfold oldestOrder at hmem
  rw [List.mem_reverse] at hmem
  have hp := List.of_mem_filter hmem
  simp only [decide_eq_true_eq] at hp
  exact hp

/-- The final `np.minimum(demand, vaccine_allocation).clip(min=0)` step: given a
non-negative allocation whose total is at most `M`, and a decremented demand
below the original demand, the clipped decision respects both bounds. -/
theorem decision_bounds (M : ℚ) (dem2 A d0 : Arr r a) (hA : ∀ i j, 0 ≤ A i j)
    (hd2 : ∀ i j, dem2 i j ≤ d0 i j) (hd0 : ∀ i j, 0 ≤ d0 i j)
    (hsum : (∑ i, ∑ j, A i j) ≤ M) :
    ((∑ i, ∑ j, max 0 (min (dem2 i j) (A i j))) ≤ M) ∧
    (∀ i j, max 0 (min (dem2 i j) (A i j)) ≤ d0 i j) := by
  constructor
  · calc (∑ i, ∑ j, max 0 (min (dem2 i j) (A i j)))
        ≤ (∑ i, ∑ j, A i j) := Finset.sum_le_sum (fun i _ => Finset.sum_le_sum
          (fun j _ => clipMin_le_alloc (hA i j)))
      _ ≤ M := hsum
  · exact fun i j => clipMin_le_bound (hd2 i j) (hd0 i j)

/-- Bounds of the newaxis tail reached when `find_prioritized_age_group`
returns `None` with a nonzero remaining total: `Mspread` doses are spread over
all cells proportionally to the remaining demand `d1`, then clipped against
the decremented demand. -/
theorem spread_decision_bounds (M Mspread : ℚ) (d1 d0 : Arr r a)
    (hMs : 0 ≤ Mspread) (hMle : Mspread ≤ M)
    (hd1 : ∀ i j, 0 ≤ d1 i j) (hd1le : ∀ i j, d1 i j ≤ d0 i j)
    (hd0 : ∀ i j, 0 ≤ d0 i j) (hT : (∑ i, ∑ j, d1 i j) ≠ 0) :
    ((∑ i, ∑ j, max 0 (min (d1 i j - Mspread * d1 i j / (∑ i2, ∑ j2, d1 i2 j2))
        (Mspread * d1 i j / (∑ i2, ∑ j2, d1 i2 j2)))) ≤ M) ∧
    (∀ i j, max 0 (min (d1 i j - Mspread * d1 i j / (∑ i2, ∑ j2, d1 i2 j2))
        (Mspread * d1 i j / (∑ i2, ∑ j2, d1 i2 j2))) ≤ d0 i j) := by
  have hT0 : 0 < ∑ i, ∑ j, d1 i j :=
    lt_of_le_of_ne
      (Finset.sum_nonneg fun i _ => Finset.sum_nonneg fun j _ => hd1 i j) (Ne.symm hT)
  have hA : ∀ (i : Fin r) (j : Fin a), 0 ≤ Mspread * d1 i j / (∑ i2, ∑ j2, d1 i2 j2) :=
    fun i j => div_nonneg (mul_nonneg hMs (hd1 i j)) (le_of_lt hT0)
  have hd2 : ∀ (i : Fin r) (j : Fin a),
      d1 i j - Mspread * d1 i j / (∑ i2, ∑ j2, d1 i2 j2) ≤ d0 i j := by
    intro i j
    have h1 := hA i j
    have h2 := hd1le i j
    linarith
  have hsum : (∑ i, ∑ j, Mspread * d1 i j / (∑ i2, ∑ j2, d1 i2 j2)) ≤ M := by
    rw [sum_proportional Mspread d1 hT]
    exact hMle
  exact decision_bounds M _ _ _ hA hd2 hd0 hsum

/-- Bounds of the shared two-stage allocation body, given that the injected
`find` only ever returns an age group whose demand column has positive sum
(true of both `find_prioritized_age_group` variants). -/
theorem twoStage_bounds (find : Arr r a → Option (Fin a))
    (hfind : ∀ (d : Arr r a) (g : Fin a), find d = some g → 0 < ∑ i, d i g)
    (eps M : ℚ) (S V : Arr r a) (hM : 0 ≤ M)
    (hdem : ∀ i j, 0 ≤ demandOf eps S V i j) :
    ∀ alloc, twoStagePolicy find eps M S V = some alloc →
      ((∑ i, ∑ j, alloc i j) ≤ M) ∧ (∀ i j, alloc i j ≤ demandOf eps S V i j) := by
  intro alloc h
  by_cases hM0 : 0 < M
  · rw [twoStagePolicy, if_pos hM0] at h
    simp only [] at h
    cases hg1 : find (demandOf eps S V) with
    | none =>
      rw [hg1] at h
      simp only [] at h
      by_cases hb0 : (∑ i, ∑ j, demandOf eps S V i j) < M
      · rw [if_pos hb0] at h
        exact absurd h (by simp)
      · rw [if_neg hb0] at h
        simp only [Option.some.injEq] at h
        subst h
        have hT0 : (∑ i, ∑ j, demandOf eps S V i j) ≠ 0 :=
          ne_of_gt (lt_of_lt_of_le hM0 (not_lt.mp hb0))
        exact spread_decision_bounds M M (demandOf eps S V) (demandOf eps S V)
          hM (le_refl M) hdem (fun i j => le_refl _) hdem hT0
    | some g1 =>
      rw [hg1] at h
      simp only [] at h
      have hT1 : 0 < ∑ i, demandOf eps S V i g1 := hfind _ g1 hg1
      by_cases hb : (∑ i, demandOf eps S V i g1) < M
      · rw [if_pos hb] at h
        cases hg2 : find (fun i j => if j = g1 then 0 else demandOf eps S V i j) with
        | none =>
          rw [hg2] at h
          simp only [] at h
          by_cases hz : (∑ i, ∑ j, (if j = g1 then 0 else demandOf eps S V i j)) = 0
          · rw [if_pos hz] at h
            exact absurd h (by simp)
          · rw [if_neg hz] at h
            simp only [Option.some.injEq] at h
            subst h
            have hd1 : ∀ (i : Fin r) (j : Fin a),
                0 ≤ (if j = g1 then 0 else demandOf eps S V i j) := by
              intro i j
              by_cases h1 : j = g1
              · rw [if_pos h1]
              · rw [if_neg h1]; exact hdem i j
            have hd1le : ∀ (i : Fin r) (j : Fin a),
                (if j = g1 then 0 else demandOf eps S V i j) ≤ demandOf eps S V i j := by
              intro i j
              by_cases h1 : j = g1
              · rw [if_pos h1]; exact hdem i j
              · rw [if_neg h1]
            exact spread_decision_bounds M (M - ∑ i, demandOf eps S V i g1)
              (fun i j => if j = g1 then 0 else demandOf eps S V i j)
              (demandOf eps S V)
              (by linarith) (by linarith) hd1 hd1le hdem hz
        | some g2 =>
          rw [hg2] at h
          simp only [Option.some.injEq] at h
          subst h
          have hT2 : 0 < ∑ i, (fun i j => if j = g1 then 0
              else demandOf eps S V i j) i g2 := hfind _ g2 hg2
          simp only [] at hT2
          have hg21 : g2 ≠ g1 := by
            intro hgg
            rw [Finset.sum_congr rfl (fun i (_ : i ∈ Finset.univ) => if_pos hgg)] at hT2
            simp at hT2
          rw [Finset.sum_congr rfl (fun i (_ : i ∈ Finset.univ) => if_neg hg21)] at hT2
          have hM2 : 0 < M - ∑ i, demandOf eps S V i g1 := by linarith
          simp only [if_neg hg21]
          have hA : ∀ (i : Fin r) (j : Fin a),
              0 ≤ (if j = g1 then demandOf eps S V i g1
                else if j = g2 then (M - ∑ i2, demandOf eps S V i2 g1)
                  * demandOf eps S V i g2 / (∑ i2, demandOf eps S V i2 g2) else 0) := by
            intro i j
            by_cases h1 : j = g1
            · rw [if_pos h1]; exact hdem i g1
            · rw [if_neg h1]
              by_cases h2 : j = g2
              · rw [if_pos h2]
                exact div_nonneg (mul_nonneg (le_of_lt hM2) (hdem i g2)) (le_of_lt hT2)
              · rw [if_neg h2]
          have hd2 : ∀ (i : Fin r) (j : Fin a),
              (if j = g2 then (if j = g1 then 0 else demandOf eps S V i j)
                - (if j = g1 then demandOf eps S V i g1
                  else if j = g2 then (M - ∑ i2, demandOf eps S V i2 g1)
                    * demandOf eps S V i g2 / (∑ i2, demandOf eps S V i2 g2) else 0)
                else (if j = g1 then 0 else demandOf eps S V i j))
              ≤ demandOf eps S V i j := by
            intro i j
            by_cases h2 : j = g2
            · have hjg1 : ¬ j = g1 := by rw [h2]; exact hg21
              rw [if_pos h2, if_neg hjg1, if_neg hjg1, if_pos h2]
              have hnn : 0 ≤ (M - ∑ i2, demandOf eps S V i2 g1)
                  * demandOf eps S V i g2 / (∑ i2, demandOf eps S V i2 g2) :=
                div_nonneg (mul_nonneg (le_of_lt hM2) (hdem i g2)) (le_of_lt hT2)
              linarith
            · rw [if_neg h2]
              by_cases h1 : j = g1
              · rw [if_pos h1]; exact hdem i j
              · rw [if_neg h1]
          have hsum : (∑ i, ∑ j, (if j = g1 then demandOf eps S V i g1
              else if j = g2 then (M - ∑ i2, demandOf eps S V i2 g1)
                * demandOf eps S V i g2 / (∑ i2, demandOf eps S V i2 g2) else 0)) ≤ M := by
            have hrow : ∀ i : Fin r, (∑ j, (if j = g1 then demandOf eps S V i g1
                else if j = g2 then (M - ∑ i2, demandOf eps S V i2 g1)
                  * demandOf eps S V i g2 / (∑ i2, demandOf eps S V i2 g2) else 0))
                = demandOf eps S V i g1 + (M - ∑ i2, demandOf eps S V i2 g1)
                  * demandOf eps S V i g2 / (∑ i2, demandOf eps S V i2 g2) :=
              fun i => sum_two_cols (fun _ => demandOf eps S V i g1)
                (fun _ => (M - ∑ i2, demandOf eps S V i2 g1)
                  * demandOf eps S V i g2 / (∑ i2, demandOf eps S V i2 g2)) hg21
            rw [Finset.sum_congr rfl (fun i _ => hrow i), Finset.sum_add_distrib]
            have hcell : ∀ i : Fin r, (M - ∑ i2, demandOf eps S V i2 g1)
                * demandOf eps S V i g2 / (∑ i2, demandOf eps S V i2 g2)
                = ((M - ∑ i2, demandOf eps S V i2 g1) / (∑ i2, demandOf eps S V i2 g2))
                  * demandOf eps S V i g2 := fun i => by ring
            rw [Finset.sum_congr rfl (fun i _ => hcell i), ← Finset.mul_sum,
              div_mul_cancel₀ _ (ne_of_gt hT2)]
            linarith
          exact decision_bounds M _ _ _ hA hd2 hdem hsum
      · rw [if_neg hb] at h
        simp only [Option.some.injEq] at h
        subst h
        have hA : ∀ (i : Fin r) (j : Fin a),
            0 ≤ (if j = g1 then M * demandOf eps S V i g1
              / (∑ i2, demandOf eps S V i2 g1) else 0) := by
          intro i j
          by_cases h1 : j = g1
          · rw [if_pos h1]
            exact div_nonneg (mul_nonneg hM (hdem i g1)) (le_of_lt hT1)
          · rw [if_neg h1]
        have hd2 : ∀ (i : Fin r) (j : Fin a),
            (if j = g1 then demandOf eps S V i j
              - (if j = g1 then M * demandOf eps S V i g1
                / (∑ i2, demandOf eps S V i2 g1) else 0)
              else demandOf eps S V i j) ≤ demandOf eps S V i j := by
          intro i j
          by_cases h1 : j = g1
          · rw [if_pos h1, if_pos h1]
            have := hA i j
            rw [if_pos h1] at this
            linarith
          · rw [if_neg h1]
        have hsum : (∑ i, ∑ j, (if j = g1 then M * demandOf eps S V i g1
            / (∑ i2, demandOf eps S V i2 g1) else 0)) ≤ M := by
          have hrow : ∀ i : Fin r, (∑ j, (if j = g1 then M * demandOf eps S V i g1
              / (∑ i2, demandOf eps S V i2 g1) else 0))
              = M * demandOf eps S V i g1 / (∑ i2, demandOf eps S V i2 g1) :=
            fun i => sum_one_col
              (fun _ => M * demandOf eps S V i g1 / (∑ i2, demandOf eps S V i2 g1)) g1
          rw [Finset.sum_congr rfl (fun i _ => hrow i)]
          have hcell : ∀ i : Fin r, M * demandOf eps S V i g1
              / (∑ i2, demandOf eps S V i2 g1)
              = (M / (∑ i2, demandOf eps S V i2 g1)) * demandOf eps S V i g1 :=
            fun i => by ring
          rw [Finset.sum_congr rfl (fun i _ => hcell i), ← Finset.mul_sum,
            div_mul_cancel₀ M (ne_of_gt hT1)]
        exact decision_bounds M _ _ _ hA hd2 hdem hsum
  · rw [twoStagePolicy, if_neg hM0] at h
    simp only [Option.some.injEq] at h
    subst h
    exact ⟨by simpa using hM, fun i j => hdem i j⟩

/-- C2 (amended): for every state with non-negative compartments in which every
cell's remaining demand `S - (1-efficacy)·V` is non-negative and every region's
demand row has positive total, each of the six allocation policies returns —
whenever the returned array is free of NaN, i.e. whenever no 0/0 division
occurs (`some` in this embedding; the adults-first/oldest-first newaxis tail
divides by a zero demand total when the supply exceeds all remaining demand,
see `twoStagePolicy`) — an allocation whose total does not exceed the period's
supply `M` and whose every (region, age-group) cell does not exceed that
cell's remaining demand. -/
theorem allocation_policies_respect_bounds {r' : ℕ} (tag : PolicyTag)
    (picks : List (Fin (r'+1) × Fin 8)) (eps M : ℚ) (S V Inf : Arr (r'+1) 8)
    (hM : 0 ≤ M) (hInf : ∀ i j, 0 ≤ Inf i j)
    (hdem : ∀ i j, 0 ≤ demandOf eps S V i j)
    (hrow : ∀ i, 0 < ∑ j, demandOf eps S V i j) :
    ∀ alloc, applyPolicy tag picks eps M S V Inf = some alloc →
      ((∑ i, ∑ j, alloc i j) ≤ M) ∧ (∀ i j, alloc i j ≤ demandOf eps S V i j) := by
  have htot : 0 < ∑ i, ∑ j, demandOf eps S V i j :=
    Finset.sum_pos (fun i _ => hrow i) Finset.univ_nonempty
  intro alloc h
  cases tag with
  | noVaccines =>
    simp only [applyPolicy, Option.some.injEq] at h
    subst h
    exact ⟨by simpa [noVaccinesPolicy] using hM,
      fun i j => by simpa [noVaccinesPolicy] using hdem i j⟩
  | random =>
    simp only [applyPolicy, Option.some.injEq] at h
    subst h
    exact randomPolicy_bounds picks eps M S V hM hdem
  | susceptibleBased =>
    simp only [applyPolicy, Option.some.injEq] at h
    subst h
    exact susceptibleBased_bounds eps M S V hM hdem htot
  | infectionBased =>
    simp only [applyPolicy, Option.some.injEq] at h
    subst h
    exact infectionBased_bounds eps M S V Inf hM hInf hdem hrow htot
  | adultsFirst =>
    simp only [applyPolicy, adultsFirstPolicy] at h
    exact twoStage_bounds findAdults (fun d g hg => findAdults_pos hg)
      eps M S V hM hdem alloc h
  | oldestFirst =>
    simp only [applyPolicy, oldestFirstPolicy] at h
    exact twoStage_bounds findOldest (fun d g hg => findOldest_pos hg)
      eps M S V hM hdem alloc h

/-- Witness for C2 at a concrete state (one region, unit susceptibles, no
vaccinated, supply 1): the susceptible-based policy respects both bounds. -/
theorem allocation_policies_respect_bounds_witness :
    ((∑ i, ∑ j, susceptibleBasedPolicy (1/2) 1
        ((fun _ _ => 1) : Arr 1 8) (fun _ _ => 0) i j) ≤ 1) ∧
    (∀ i j, susceptibleBasedPolicy (1/2) 1 ((fun _ _ => 1) : Arr 1 8) (fun _ _ => 0) i j
      ≤ demandOf (1/2) (fun _ _ => 1) (fun _ _ => 0) i j) :=
  allocation_policies_respect_bounds PolicyTag.susceptibleBased [] (1/2) 1
    ((fun _ _ => 1) : Arr 1 8) (fun _ _ => 0) (fun _ _ => 0)
    (by norm_num) (fun _ _ => le_refl 0)
    (fun i j => by norm_num [demandOf])
    (fun i => by simp [demandOf])
    (susceptibleBasedPolicy (1/2) 1 (fun _ _ => 1) (fun _ _ => 0)) rfl

/-- Concrete state for the C2 counterexample: non-negative compartments with a
cell of negative remaining demand (one region, two age groups; the policy code
is dimension-generic). -/
def sC2 : Arr 1 2 := fun _ => ![2, 0]

/-- Vaccinated-compartment array for the C2 counterexample. -/
def vC2 : Arr 1 2 := fun _ => ![0, 2]

/-- Susceptible-compartment array for the NaN conjunct of the C2
counterexample: its remaining demand (0, 1) is non-negative with positive row
sum, yet the oldest-first policy still returns a NaN-poisoned array when the
supply exceeds the total demand. -/
def sNaN : Arr 1 2 := fun _ => ![0, 1]

/-- C2 counterexample, two parts.  (a) Supply bound: with non-negative
compartments S = (2,0), V = (0,2), efficacy 1/2 and supply M = 1, the
susceptible-based policy allocates a total of 2 > 1 doses — the cell with
negative remaining demand (S − (1−ε)·V = −1) shrinks the normalizing
denominator `np.sum(demand)` to 1, so the positive-demand cell receives twice
the whole supply and the final `np.minimum(demand, ·).clip(min=0)` keeps it.
(b) NaN return: with S = (0,1), V = 0 (demand (0,1), non-negative with
positive row sum) and supply M = 5 exceeding the total demand, the
oldest-first policy serves group 1 fully, the repeated
`find_prioritized_age_group` returns `None`, and the newaxis tail computes
`M' * demand / np.sum(demand) = 0/0`: the policy returns (it does not raise)
an all-NaN decision, which satisfies neither bound — `none` in this
embedding. -/
theorem allocation_policy_supply_violated :
    (∀ i j, 0 ≤ sC2 i j) ∧ (∀ i j, 0 ≤ vC2 i j) ∧
    (∑ i, ∑ j, susceptibleBasedPolicy (1/2) 1 sC2 vC2 i j) = 2 ∧
    ¬ ((∑ i, ∑ j, susceptibleBasedPolicy (1/2) 1 sC2 vC2 i j) ≤ 1) ∧
    (∀ i j, 0 ≤ demandOf (1/2) sNaN ((fun _ _ => 0) : Arr 1 2) i j) ∧
    (∀ i : Fin 1, 0 < ∑ j, demandOf (1/2) sNaN ((fun _ _ => 0) : Arr 1 2) i j) ∧
    oldestFirstPolicy (1/2) 5 sNaN ((fun _ _ => 0) : Arr 1 2) = none := by
  have hS : ∀ (i : Fin 1) (j : Fin 2), 0 ≤ sC2 i j := by
    intro i j
    fin_cases j <;> simp [sC2]
  have hV : ∀ (i : Fin 1) (j : Fin 2), 0 ≤ vC2 i j := by
    intro i j
    fin_cases j <;> simp [vC2]
  have hval : (∑ i, ∑ j, susceptibleBasedPolicy (1/2) 1 sC2 vC2 i j) = 2 := by
    simp only [susceptibleBasedPolicy, demandOf, sC2, vC2]
    norm_num [Fin.sum_univ_two, Fin.sum_univ_one]
  have hdN : ∀ (i : Fin 1) (j : Fin 2),
      0 ≤ demandOf (1/2) sNaN ((fun _ _ => 0) : Arr 1 2) i j := by
    intro i j
    fin_cases j <;> norm_num [demandOf, sNaN]
  have hrowN : ∀ i : Fin 1, 0 < ∑ j, demandOf (1/2) sNaN ((fun _ _ => 0) : Arr 1 2) i j := by
    intro i
    fin_cases i
    norm_num [demandOf, sNaN, Fin.sum_univ_two]
  have hsB : (∑ i : Fin 1, demandOf (1/2) sNaN ((fun _ _ => 0) : Arr 1 2) i 1) = 1 := by
    norm_num [demandOf, sNaN, Fin.sum_univ_one]
  have hfindB : findOldest (demandOf (1/2) sNaN ((fun _ _ => 0) : Arr 1 2)) = some 1 := by
    have horder : oldestOrder 2 = [1] := by decide
    rw [findOldest, horder]
    simp only [List.find?, hsB, npRound_one]
    simp
  have hfindC : findOldest (fun i j => if j = (1 : Fin 2) then 0
      else demandOf (1/2) sNaN ((fun _ _ => 0) : Arr 1 2) i j) = none := by
    have horder : oldestOrder 2 = [1] := by decide
    rw [findOldest, horder]
    simp only [List.find?]
    simp [npRound_zero]
  have hT2 : (∑ i, ∑ j, (if j = (1 : Fin 2) then 0
      else demandOf (1/2) sNaN ((fun _ _ => 0) : Arr 1 2) i j)) = 0 := by
    norm_num [demandOf, sNaN, Fin.sum_univ_two, Fin.sum_univ_one]
  have hnan : oldestFirstPolicy (1/2) 5 sNaN ((fun _ _ => 0) : Arr 1 2) = none := by
    rw [oldestFirstPolicy, twoStagePolicy, if_pos (by norm_num : (0:ℚ) < 5)]
    simp only []
    rw [hfindB]
    simp only []
    rw [if_pos (by rw [hsB]; norm_num)]
    rw [hfindC]
    simp only []
    rw [if_pos hT2]
  exact ⟨hS, hV, hval, by rw [hval]; norm_num, hdN, hrowN, hnan⟩

/-- Demand array for the C10 counterexample: all demand in the youngest age
group, so `find_prioritized_age_group` (which scans only groups n-1 down to 1)
returns `None`. -/
def sC10 : Arr 1 2 := fun _ => ![2, 0]

/-- C10 counterexample: with S = (2, 0) (all demand in the youngest group 0),
V = 0, efficacy 1/2 and supply M = 1, every rounded column sum from the oldest
group down to group 1 is zero, so `find_prioritized_age_group` returns `None`;
numpy then treats the `None` index as `np.newaxis`, `total_age_group_demand`
becomes the whole demand total 2 ≥ M, and `allocation[:, None] = ...` spreads
the supply demand-proportionally over all columns: the returned decision has
`min(2 − 1, 1).clip(0) = 1` dose in column 0 — the policy does allocate to the
youngest age group, without raising. -/
theorem oldest_first_allocates_youngest_on_failed_search :
    (∀ i j, 0 ≤ sC10 i j) ∧
    (oldestFirstPolicy (1/2) 1 sC10 (fun _ _ => 0)).map (fun al => al 0 0) = some 1 ∧
    ((1:ℚ) ≠ 0) := by
  refine ⟨fun i j => by fin_cases j <;> simp [sC10], ?_, by norm_num⟩
  have hfind0 : findOldest (demandOf (1/2) sC10 (fun _ _ => 0)) = none := by
    have horder : oldestOrder 2 = [1] := by decide
    rw [findOldest, horder]
    have hs : (∑ i : Fin 1, demandOf (1/2) sC10 (fun _ _ => 0) i 1) = 0 := by
      norm_num [demandOf, sC10, Fin.sum_univ_one]
    simp only [List.find?, hs, npRound_zero]
    simp
  have hs2 : (∑ i, ∑ j, demandOf (1/2) sC10 (fun _ _ => 0) i j) = 2 := by
    norm_num [demandOf, sC10, Fin.sum_univ_two, Fin.sum_univ_one]
  rw [oldestFirstPolicy, twoStagePolicy, if_pos (by norm_num : (0:ℚ) < 1)]
  simp only []
  rw [hfind0]
  simp only []
  rw [if_neg (by rw [hs2]; norm_num)]
  simp only [Option.map_some', Option.some.injEq]
  rw [hs2]
  norm_num [demandOf, sC10]

/-- C10 (amended): whenever `_oldest_first_policy` returns an allocation and
the prioritized-age-group search succeeds at each of its (at most two)
invocations — some age group ≥ 1 has positive rounded demand — every cell of
column 0 (the youngest age group) of the returned array is zero, because the
search iterates only over `range(n_age_groups-1, 0, -1)` and so both
allocation stages target groups ≥ 1.  (When a search fails, numpy's newaxis
indexing of `None` spreads the supply over all columns instead, and column 0
can receive doses: see the counterexample.) -/
theorem oldest_first_never_allocates_youngest {r a' : ℕ} (eps M : ℚ)
    (S V : Arr r (a'+1)) (alloc : Arr r (a'+1))
    (h : oldestFirstPolicy eps M S V = some alloc)
    (h1 : 0 < M → (findOldest (demandOf eps S V)).isSome = true)
    (h2 : ∀ g1 : Fin (a'+1), findOldest (demandOf eps S V) = some g1 →
      (∑ i, demandOf eps S V i g1) < M →
      (findOldest (fun i j => if j = g1 then 0 else demandOf eps S V i j)).isSome = true) :
    ∀ i, alloc i 0 = 0 := by
  intro i
  rw [oldestFirstPolicy] at h
  by_cases hM0 : 0 < M
  · rw [twoStagePolicy, if_pos hM0] at h
    simp only [] at h
    cases hg1 : findOldest (demandOf eps S V) with
    | none =>
      have := h1 hM0
      rw [hg1] at this
      simp at this
    | some g1 =>
      rw [hg1] at h
      simp only [] at h
      have hg1ne : ¬ ((0 : Fin (a'+1)) = g1) := by
        have hv := findOldest_val_pos hg1
        intro he
        rw [← he] at hv
        simp at hv
      by_cases hb : (∑ i2, demandOf eps S V i2 g1) < M
      · rw [if_pos hb] at h
        cases hg2 : findOldest (fun i2 j => if j = g1 then 0 else demandOf eps S V i2 j) with
        | none =>
          have := h2 g1 hg1 hb
          rw [hg2] at this
          simp at this
        | some g2 =>
          rw [hg2] at h
          simp only [Option.some.injEq] at h
          subst h
          have hg2ne : ¬ ((0 : Fin (a'+1)) = g2) := by
            have hv := findOldest_val_pos hg2
            intro he
            rw [← he] at hv
            simp at hv
          simp only [hg1ne, hg2ne, if_false]
          exact max_eq_left (min_le_right _ _)
      · rw [if_neg hb] at h
        simp only [Option.some.injEq] at h
        subst h
        simp only [hg1ne, if_false]
        exact max_eq_left (min_le_right _ _)
  · rw [twoStagePolicy, if_neg hM0] at h
    simp only [Option.some.injEq] at h
    subst h
    rfl

/-- Demand array for the C10 witness: all demand in the older age group, so
the search succeeds. -/
def swC10 : Arr 1 2 := fun _ => ![0, 1]

/-- Witness for C10 at a concrete state where the search succeeds: with
S = (0, 1), V = 0, efficacy 1/2 and supply 1, the policy serves group 1 and
the returned decision's column 0 is zero. -/
theorem oldest_first_never_allocates_youngest_witness :
    ((fun (_ : Fin 1) (_ : Fin 2) => (0:ℚ))) 0 0 = 0 := by
  have hs1 : (∑ i : Fin 1, demandOf (1/2) swC10 (fun _ _ => 0) i 1) = 1 := by
    norm_num [demandOf, swC10, Fin.sum_univ_one]
  have hfindA : findOldest (demandOf (1/2) swC10 (fun _ _ => 0)) = some 1 := by
    have horder : oldestOrder 2 = [1] := by decide
    rw [findOldest, horder]
    simp only [List.find?, hs1, npRound_one]
    simp
  refine oldest_first_never_allocates_youngest (1/2) 1 swC10 (fun _ _ => 0)
    (fun _ _ => 0) ?_ (fun _ => by rw [hfindA]; rfl) ?_ 0
  · rw [oldestFirstPolicy, twoStagePolicy, if_pos (by norm_num : (0:ℚ) < 1)]
    simp only []
    rw [hfindA]
    simp only []
    rw [if_neg (by rw [hs1]; norm_num)]
    rw [Option.some.injEq]
    funext i j
    fin_cases i
    fin_cases j <;> norm_num [hs1, demandOf, swC10]
  · intro g1 hg1 hlt
    rw [hfindA, Option.some.injEq] at hg1
    subst hg1
    rw [hs1] at hlt
    norm_num at hlt

/-! ### SEAIR epidemic model (`covid/seair.py`, `SEAIR.simulate`)

Numpy float arrays become `Arr r a`; the deterministic mode
(`stochastic=False`) is embedded, so the Poisson draws are the identity on
their means.  Divisions are exact rational divisions with Lean's `x / 0 = 0`
convention; theorems that depend on division carry hypotheses keeping them in
the regime where the Python floats are finite, and claim C6 about the
unguarded zero-denominator case is stated over the extended values `FVal`
below, which model the IEEE `inf`/`nan` results the code actually produces. -/

/-- The eight compartment arrays of a State, as unpacked by
`state.get_compartments_values()`. -/
structure Comp (r a : ℕ) where
  S : Arr r a
  E1 : Arr r a
  E2 : Arr r a
  A : Arr r a
  I : Arr r a
  R : Arr r a
  D : Arr r a
  V : Arr r a

/-- Static configuration of `SEAIR.__init__`. -/
structure SEAIRModel (r a : ℕ) where
  periodsPerDay : ℕ
  commuterVisitors : Fin r → ℚ
  commuterFlow : Fin r → Fin r → ℚ
  contactMatrices : Fin 4 → Fin a → Fin a → ℚ
  ageGroupFlowScaling : Fin a → ℚ
  fatalityRateSymptomatic : Fin a → ℚ
  efficacy : ℚ
  latentPeriod : ℚ
  proportionSymptomatic : ℚ
  presymptomaticInfectiousness : ℚ
  asymptomaticInfectiousness : ℚ
  presymptomaticPeriod : ℚ
  postsymptomaticPeriod : ℚ
  includeFlow : Bool

/-- Exogenous information consumed by `SEAIR.simulate`: `information['R']`,
`information['alphas']`, `information['contact_weights']`,
`information['flow_scale']`. -/
structure SEAIRInfo where
  Reff : ℚ
  alphas : Fin 3 → ℚ
  contactWeights : Fin 4 → ℚ
  flowScale : ℚ

/-- `SEAIR.generate_weighted_contact_matrix`: the contact matrices scaled by
the contact weights and summed. -/
def generateWeightedContactMatrix (Cs : Fin 4 → Fin a → Fin a → ℚ) (w : Fin 4 → ℚ) :
    Fin a → Fin a → ℚ :=
  fun g j => ∑ m, Cs m g j * w m

/-- One sub-day step of the loop body of `SEAIR.simulate` at loop index `i`
(`weekday = state.date.weekday()`): pro-rated vaccination S→R with dose
tracking in V, effective population N, commuter exposures during working
hours, local contact exposures, and the fixed-rate compartment transitions.
Returns the updated compartments together with this step's `new_I` and
`new_D` (the arrays accumulated into `total_new_infected` and
`total_new_deaths`). -/
def seairStep (md : SEAIRModel r a) (info : SEAIRInfo) (decision : Arr r a)
    (decisionPeriod : ℕ) (weekday i : ℕ) (c : Comp r a) :
    Comp r a × Arr r a × Arr r a :=
  let ppd : ℚ := md.periodsPerDay
  let recoveryPeriod := md.presymptomaticPeriod + md.postsymptomaticPeriod
  let beta := info.Reff / recoveryPeriod
  let r_e := md.presymptomaticInfectiousness
  let r_a := md.asymptomaticInfectiousness
  let p := md.proportionSymptomatic
  let delta := md.fatalityRateSymptomatic
  let epsilon := md.efficacy
  let sigma := 1 / (md.latentPeriod * ppd)
  let alphaR := 1 / (md.presymptomaticPeriod * ppd)
  let omega := 1 / (md.postsymptomaticPeriod * ppd)
  let gamma := 1 / (recoveryPeriod * ppd)
  let C := generateWeightedContactMatrix md.contactMatrices info.contactWeights
  let visitors := fun k => md.commuterVisitors k * info.flowScale
  let OD := fun k l => md.commuterFlow k l * info.flowScale
  let timestep := (weekday * md.periodsPerDay + i) % decisionPeriod
  let new_V := fun k j => decision k j / (decisionPeriod : ℚ)
  let S1 := fun k j => c.S k j - epsilon * new_V k j
  let R1 := fun k j => c.R k j + epsilon * new_V k j
  let V1 := fun k j => c.V k j + new_V k j
  let N := fun k j => S1 k j + c.E1 k j + c.E2 k j + c.A k j + c.I k j + R1 k j
  let lam_j := fun k j =>
    clip01 (beta * (r_e * c.E2 k j + r_a * c.A k j + c.I k j) / visitors k)
  let commuterCases : Arr r a :=
    if md.includeFlow = true ∧ timestep < md.periodsPerDay * 5
        ∧ timestep % md.periodsPerDay = 2 then
      fun k j => S1 k j / N k j * (∑ l, OD k l * md.ageGroupFlowScaling j * lam_j l j)
    else fun _ _ => 0
  let lam_i := fun k g => clip01 (beta * (info.alphas 0 * r_e * c.E2 k g
    + info.alphas 1 * r_a * c.A k g + info.alphas 2 * c.I k g))
  let contactCases := fun k j => S1 k j / N k j * (∑ g, lam_i k g * C g j)
  let new_E1 := fun k j => min (contactCases k j + commuterCases k j) (S1 k j)
  let new_E2 := fun k j => c.E1 k j * sigma * p
  let new_A := fun k j => c.E1 k j * sigma * (1 - p)
  let new_I := fun k j => c.E2 k j * alphaR
  let new_R_A := fun k j => c.A k j * gamma
  let new_R_I := fun k j => c.I k j * (1 - delta j) * omega
  let new_D := fun k j => c.I k j * delta j * omega
  ({ S := fun k j => S1 k j - new_E1 k j
     E1 := fun k j => c.E1 k j + new_E1 k j - new_E2 k j - new_A k j
     E2 := fun k j => c.E2 k j + new_E2 k j - new_I k j
     A := fun k j => c.A k j + new_A k j - new_R_A k j
     I := fun k j => c.I k j + new_I k j - new_R_I k j - new_D k j
     R := fun k j => R1 k j + new_R_I k j + new_R_A k j
     D := fun k j => c.D k j + new_D k j
     V := V1 }, new_I, new_D)

/-- The simulation loop of `SEAIR.simulate` from loop index `i`, running the
given number of further sub-day steps and accumulating new infections and
deaths. -/
def simulateFrom (md : SEAIRModel r a) (info : SEAIRInfo) (decision : Arr r a)
    (decisionPeriod : ℕ) (weekday : ℕ) :
    ℕ → ℕ → Comp r a × Arr r a × Arr r a → Comp r a × Arr r a × Arr r a
  | _, 0, acc => acc
  | i, fuel+1, acc =>
      let s := seairStep md info decision decisionPeriod weekday i acc.1
      simulateFrom md info decision decisionPeriod weekday (i+1) fuel
        (s.1, fun k j => acc.2.1 k j + s.2.1 k j, fun k j => acc.2.2 k j + s.2.2 k j)

/-- `SEAIR.simulate` in deterministic mode: `decision_period` sub-day steps;
returns the final compartments and the accumulated `total_new_infected` and
`total_new_deaths` arrays. -/
def simulate (md : SEAIRModel r a) (info : SEAIRInfo) (decision : Arr r a)
    (decisionPeriod : ℕ) (weekday : ℕ) (c : Comp r a) : Comp r a × Arr r a × Arr r a :=
  simulateFrom md info decision decisionPeriod weekday 0 decisionPeriod
    (c, fun _ _ => 0, fun _ _ => 0)

/-- Per-cell sum of the live chain S+E1+E2+A+I+R (excluding the Deceased
counter and the administered-dose counter V).  This also equals the effective
population `N` recomputed inside the step after vaccination, since
vaccination only moves `efficacy·new_V` from S to R. -/
def cellLive (c : Comp r a) (k : Fin r) (j : Fin a) : ℚ :=
  c.S k j + c.E1 k j + c.E2 k j + c.A k j + c.I k j + c.R k j

/-- Sum of all eight compartments minus Deceased, the quantity of claim C3. -/
def totalMinusD (c : Comp r a) : ℚ :=
  ∑ k, ∑ j, (c.S k j + c.E1 k j + c.E2 k j + c.A k j + c.I k j + c.R k j + c.V k j)

/-- One-region one-age-group model for the negative-compartment evaluation:
vaccine efficacy 1, no transmission, no flow. -/
def md1 : SEAIRModel 1 1 :=
  { periodsPerDay := 1
    commuterVisitors := fun _ => 1
    commuterFlow := fun _ _ => 0
    contactMatrices := fun _ _ _ => 0
    ageGroupFlowScaling := fun _ => 0
    fatalityRateSymptomatic := fun _ => 0
    efficacy := 1
    latentPeriod := 1
    proportionSymptomatic := 1/2
    presymptomaticInfectiousness := 1
    asymptomaticInfectiousness := 1
    presymptomaticPeriod := 1
    postsymptomaticPeriod := 1
    includeFlow := false }

/-- Exogenous information with zero effective reproduction number. -/
def info1 : SEAIRInfo :=
  { Reff := 0, alphas := fun _ => 1, contactWeights := fun _ => 0, flowScale := 1 }

/-- Initial compartments for the C1 evaluation: nobody susceptible, one
recovered (so the effective population stays positive). -/
def c1 : Comp 1 1 :=
  { S := fun _ _ => 0, E1 := fun _ _ => 0, E2 := fun _ _ => 0, A := fun _ _ => 0
    I := fun _ _ => 0, R := fun _ _ => 1, D := fun _ _ => 0, V := fun _ _ => 0 }

/-- C1 (evaluation of the code at the failing input): `SEAIR.simulate` never
clips compartments at zero.  With one region and age group, S = 0, R = 1,
vaccine efficacy 1 and a decision of one dose over a one-step period, the
vaccination update `S = S - successfully_new_V` drives S to −1, and the cap
`new_E1 = np.clip(..., None, S)` then produces new_E1 = −1, pushing E1 to −1:
a negative compartment value is produced silently, with no clip and no
assertion anywhere in the loop. -/
theorem simulate_produces_negative_compartment :
    (simulate md1 info1 (fun _ _ => 1) 1 0 c1).1.E1 0 0 = -1 ∧
    (simulate md1 info1 (fun _ _ => 1) 1 0 c1).1.E1 0 0 < 0 := by
  have h : (simulate md1 info1 (fun _ _ => 1) 1 0 c1).1.E1 0 0 = -1 := by
    simp only [simulate, simulateFrom, seairStep, md1, info1, c1, clip01,
      generateWeightedContactMatrix, Fin.sum_univ_one]
    norm_num
  exact ⟨h, by rw [h]; norm_num⟩

/-- Model for the C3 counterexample: efficacy 1/2, no transmission, no flow. -/
def mdC3 : SEAIRModel 1 1 :=
  { md1 with efficacy := 1/2 }

/-- Initial compartments for the C3 counterexample: one susceptible. -/
def cC3 : Comp 1 1 :=
  { S := fun _ _ => 1, E1 := fun _ _ => 0, E2 := fun _ _ => 0, A := fun _ _ => 0
    I := fun _ _ => 0, R := fun _ _ => 0, D := fun _ _ => 0, V := fun _ _ => 0 }

/-- C3 counterexample: a deterministic one-step run with one dose of vaccine
(efficacy 1/2, no transmission, no deaths) moves the claimed quantity — the sum
of all eight compartments minus Deceased — from 1 to 2 while new deaths are 0:
the claimed conservation law fails because V counts administered doses whose
recipients also remain in S or R. -/
theorem mass_conservation_with_V_fails :
    totalMinusD (simulate mdC3 info1 (fun _ _ => 1) 1 0 cC3).1 = 2 ∧
    totalMinusD cC3 = 1 ∧
    (∑ k, ∑ j, (simulate mdC3 info1 (fun _ _ => 1) 1 0 cC3).2.2 k j) = 0 ∧
    totalMinusD (simulate mdC3 info1 (fun _ _ => 1) 1 0 cC3).1
      ≠ totalMinusD cC3
        - (∑ k, ∑ j, (simulate mdC3 info1 (fun _ _ => 1) 1 0 cC3).2.2 k j) := by
  have h1 : totalMinusD (simulate mdC3 info1 (fun _ _ => 1) 1 0 cC3).1 = 2 := by
    simp only [simulate, simulateFrom, seairStep, totalMinusD, mdC3, md1, info1, cC3,
      clip01, generateWeightedContactMatrix, Fin.sum_univ_one]
    norm_num
  have h2 : totalMinusD cC3 = 1 := by
    simp only [totalMinusD, cC3, Fin.sum_univ_one]
    norm_num
  have h3 : (∑ k, ∑ j, (simulate mdC3 info1 (fun _ _ => 1) 1 0 cC3).2.2 k j) = 0 := by
    simp only [simulate, simulateFrom, seairStep, mdC3, md1, info1, cC3,
      clip01, generateWeightedContactMatrix, Fin.sum_univ_one]
    norm_num
  exact ⟨h1, h2, h3, by rw [h1, h2, h3]; norm_num⟩

/-- C3 (amended): in deterministic mode every sub-day step conserves mass along
the transition chain once V is excluded: per (region, age-group) cell, the
post-step sum S+E1+E2+A+I+R equals the pre-step sum minus that step's new
deaths.  Vaccination moves `efficacy·new_V` from S to R (conserving the sum)
while V, a counter of administered doses, grows by `new_V`; every other term
moves mass between two compartments of the chain except `new_D`, which leaves
it.  The hypotheses keep the step inside the regime where the Python float
computation is finite (positive effective population; visitor counts nonzero
whenever commuting is enabled), where the embedding is exact. -/
theorem seair_step_mass_conservation (md : SEAIRModel r a) (info : SEAIRInfo)
    (decision : Arr r a) (dp : ℕ) (weekday i : ℕ) (c : Comp r a)
    (hN : ∀ k j, 0 < cellLive c k j)
    (hvis : md.includeFlow = true → ∀ k, md.commuterVisitors k * info.flowScale ≠ 0) :
    ∀ k j, cellLive (seairStep md info decision dp weekday i c).1 k j
      = cellLive c k j - (seairStep md info decision dp weekday i c).2.2 k j := by
  intro k j
  simp only [seairStep, cellLive]
  ring

/-- Witness for C3's amended conservation law at the concrete C3 state. -/
theorem seair_step_mass_conservation_witness :
    cellLive (seairStep mdC3 info1 (fun _ _ => 1) 1 0 0 cC3).1 0 0
      = cellLive cC3 0 0 - (seairStep mdC3 info1 (fun _ _ => 1) 1 0 0 cC3).2.2 0 0 :=
  seair_step_mass_conservation mdC3 info1 (fun _ _ => 1) 1 0 0 cC3
    (fun k j => by simp [cellLive, cC3])
    (fun hflow => by simp [mdC3, md1] at hflow) 0 0

/-! ### Unguarded float division in the commuter term (claim C6)

`lam_j = np.clip(beta*(r_e*E2 + r_a*A + I)/visitors, 0, 1)` (seair.py line
110) divides by the visitor counts with no guard.  The extended values below
model what the IEEE floats do on a zero denominator. -/

/-- IEEE-style extended value: a finite rational, a signed infinity, or nan. -/
inductive FVal where
  | fin : ℚ → FVal
  | posInf : FVal
  | negInf : FVal
  | nan : FVal
deriving DecidableEq, Repr

/-- Float division `x / y` as numpy computes it: signed infinity for a nonzero
numerator over zero, `nan` for 0/0. -/
def fdiv (x y : ℚ) : FVal :=
  if y = 0 then (if x = 0 then .nan else if 0 < x then .posInf else .negInf)
  else .fin (x / y)

/-- `np.clip(·, 0, 1)` on extended values: `clip(+inf)=1`, `clip(-inf)=0`,
`clip(nan)=nan`. -/
def fclip01 : FVal → FVal
  | .fin q => .fin (min 1 (max 0 q))
  | .posInf => .fin 1
  | .negInf => .fin 0
  | .nan => .nan

/-- The per-cell commuter force of infection exactly as seair.py line 110
computes it, on extended values. -/
def lamJCode (beta r_e r_a E2 A I visitors : ℚ) : FVal :=
  fclip01 (fdiv (beta * (r_e * E2 + r_a * A + I)) visitors)

/-- The remaining factors of this cell's commuter exposure term,
`S/N * (OD·age_scale) * lam`, applied to the extended lambda. -/
def commuterCaseF (SN odScale : ℚ) : FVal → FVal
  | .fin q => .fin (SN * odScale * q)
  | .posInf =>
      if SN * odScale = 0 then .nan
      else if 0 < SN * odScale then .posInf else .negInf
  | .negInf =>
      if SN * odScale = 0 then .nan
      else if 0 < SN * odScale then .negInf else .posInf
  | .nan => .nan

/-- C6 (evaluation of the code at the failing input): the division by the
visitor counts is not guarded.  With zero visitors and one infectious person
(beta = r_e = r_a = 1, E2 = A = 0, I = 1) the division yields +inf, `np.clip`
turns it into lambda = 1, and the commuter exposure term becomes
`S/N · OD·scale · 1 = 5 ≠ 0` — the maximal exposure, not a short-circuit to
zero; with no infectious people the same division yields 0/0 = nan, which the
clip propagates into the compartments.  No branch on `visitors == 0` exists in
the code. -/
theorem commuter_term_not_guarded :
    lamJCode 1 1 1 0 0 1 0 = FVal.fin 1 ∧
    commuterCaseF (1/2) 10 (lamJCode 1 1 1 0 0 1 0) = FVal.fin 5 ∧
    FVal.fin 5 ≠ FVal.fin 0 ∧
    lamJCode 1 1 1 0 0 0 0 = FVal.nan ∧
    commuterCaseF (1/2) 10 (lamJCode 1 1 1 0 0 0 0) = FVal.nan := by
  refine ⟨?_, ?_, ?_, ?_, ?_⟩ <;>
    norm_num [lamJCode, fdiv, fclip01, commuterCaseF, FVal.fin.injEq]

/-! ### Adaptive control measures
(`MarkovDecisionProcess._map_infection_to_control_measures`, MDP.py 96-150)

The random wave strength (`np.random.normal(2, 0.1)`) and the float
exponential are injected as parameters (`waveStrength`, `expF`); the path
statistics the method reads (`len(self.path)`, current/historic new
infections, the path maximum, infections per 100k, days per decision period)
are passed as the values the surrounding run provides. -/

/-- `np.ndarray.clip(min=mn, max=mx)` componentwise. -/
def clampVec {n : ℕ} (mn mx x : Fin n → ℚ) : Fin n → ℚ :=
  fun k => min (mx k) (max (mn k) (x k))

/-- Embedding of `_map_infection_to_control_measures`.  Mirrors the source
faithfully — in particular the wave-week multiplication by `waveStrength`
happens only when `verbose` is true, because in the source it sits inside the
`if self.verbose:` printing block (MDP.py 104-108). -/
def mapInfectionToControlMeasures {ncw nal : ℕ} (expF : ℚ → ℚ)
    (minCW maxCW prevCW : Fin ncw → ℚ) (minAl maxAl prevAl : Fin nal → ℚ)
    (isWaveWeek verbose : Bool) (waveStrength : ℚ)
    (pathLen : ℕ) (niCur niHist maxNI inf100k nDays : ℚ) :
    (Fin ncw → ℚ) × (Fin nal → ℚ) :=
  let cw0 := if isWaveWeek = true ∧ verbose = true
    then (fun k => prevCW k * waveStrength) else prevCW
  let al0 := if isWaveWeek = true ∧ verbose = true
    then (fun k => prevAl k * waveStrength) else prevAl
  if 2 < pathLen then
    let infectionRate := if 0 < niHist then niCur / niHist else 0
    let slope := (niCur - niHist) / nDays
    let factor := 4 / ((1 + expF (5/1000 * slope)) * (1 + expF (1/100 * inf100k)))
    if (23/20 < infectionRate ∧ 1/10 * maxNI < niCur) ∨ infectionRate < 17/20 then
      (clampVec minCW maxCW (fun k => cw0 k * factor),
       clampVec minAl maxAl (fun k => al0 k * factor))
    else
      (clampVec minCW maxCW cw0, clampVec minAl maxAl al0)
  else
    (clampVec minCW maxCW cw0, clampVec minAl maxAl al0)

/-- C4 (evaluation of the code at the failing input): during a pre-scheduled
wave week the multiplication of the contact weights and alphas by the random
wave strength is inside the `if self.verbose:` printing block, so with
`verbose=False` (the mode the optimizer uses) the weights pass through
unchanged (here: stay 1), while the spec-intended behavior — multiplying by
the wave strength 2 and clipping to the configured bounds [1/4, 3] — yields 2.
A printing flag silently changes the simulation dynamics. -/
theorem wave_week_multiplier_only_when_verbose :
    (mapInfectionToControlMeasures (fun _ => 0)
      ((fun _ => 1/4) : Fin 1 → ℚ) (fun _ => 3) (fun _ => 1)
      ((fun _ => 1/4) : Fin 1 → ℚ) (fun _ => 3) (fun _ => 1)
      true false 2 0 0 0 0 0 7).1 0 = 1 ∧
    (mapInfectionToControlMeasures (fun _ => 0)
      ((fun _ => 1/4) : Fin 1 → ℚ) (fun _ => 3) (fun _ => 1)
      ((fun _ => 1/4) : Fin 1 → ℚ) (fun _ => 3) (fun _ => 1)
      true true 2 0 0 0 0 0 7).1 0 = 2 ∧
    ((1:ℚ) ≠ 2) ∧
    min (3:ℚ) (max (1/4) (1 * 2)) = 2 := by
  refine ⟨?_, ?_, by norm_num, by norm_num⟩ <;>
    norm_num [mapInfectionToControlMeasures, clampVec]

/-! ### The decision-process run loop (`MarkovDecisionProcess.run`, MDP.py 43-59)

The loop iterates `week` over `range(state.time_step, horizon)`; before each
transition it breaks when the recovered share exceeds 0.9 or when the total of
the infection-carrying compartments E1+E2+A+I falls below 0.1.  The state
transition itself (`update_state`, which calls `State.get_transition` — a class
not present under src/) is injected as an arbitrary `update` function: the
claim is about the stopping logic only. -/

/-- The compartment arrays of the MDP state that the stopping criteria read. -/
structure MDPState (r a : ℕ) where
  E1 : Arr r a
  E2 : Arr r a
  A : Arr r a
  I : Arr r a
  R : Arr r a

/-- The stop test of `run`: recovered share of the total population above 0.9,
or infection-carrying compartments summing below 0.1. -/
def mdpStop (popTotal : ℚ) (s : MDPState r a) : Bool :=
  decide ((∑ k, ∑ j, s.R k j) / popTotal > 9/10) ||
  decide ((∑ k, ∑ j, (s.E1 k j + s.E2 k j + s.A k j + s.I k j)) < 1/10)

/-- The loop of `run`, with `fuel = horizon - time_step` remaining iterations:
returns the traversed path of states (`self.path`). -/
def mdpRun (update : MDPState r a → MDPState r a) (popTotal : ℚ) :
    ℕ → MDPState r a → List (MDPState r a)
  | 0, s => [s]
  | n+1, s => if mdpStop popTotal s then [s] else s :: mdpRun update popTotal n (update s)

/-- C5: the run performs no further state transition once the stop criterion
holds — cumulative recovered exceeding 90% of the total population or the sum
E1+E2+A+I dropping below the epsilon 0.1 — and otherwise transitions step by
step until the horizon: a path over `n` remaining decision periods on which
the criterion never fires has exactly `n` transitions (length `n+1`). -/
theorem mdp_run_stopping (upd : MDPState r a → MDPState r a) (popTotal : ℚ) :
    (∀ s n, mdpStop popTotal s = true → mdpRun upd popTotal n s = [s]) ∧
    (∀ s n, mdpStop popTotal s = false →
      mdpRun upd popTotal (n+1) s = s :: mdpRun upd popTotal n (upd s)) ∧
    (∀ s n, (∀ k, k < n → mdpStop popTotal (upd^[k] s) = false) →
      (mdpRun upd popTotal n s).length = n + 1) := by
  refine ⟨?_, ?_, ?_⟩
  · intro s n hs
    cases n with
    | zero => rfl
    | succ n => rw [mdpRun, if_pos hs]
  · intro s n hs
    rw [mdpRun, if_neg (by rw [hs]; exact Bool.false_ne_true)]
  · intro s n
    induction n generalizing s with
    | zero => intro _; rfl
    | succ n ih =>
      intro hall
      have h0 : mdpStop popTotal s = false := by
        have := hall 0 (Nat.succ_pos n)
        simpa using this
      rw [mdpRun, if_neg (by rw [h0]; exact Bool.false_ne_true)]
      have hrest : ∀ k, k < n → mdpStop popTotal (upd^[k] (upd s)) = false := by
        intro k hk
        have := hall (k+1) (Nat.succ_lt_succ hk)
        rwa [Function.iterate_succ_apply] at this
      simp only [List.length_cons, ih (upd s) hrest]

/-- Witness for C5: with total population 1, a state with everyone recovered
stops immediately (a 5-period run performs no transition), and a state with
E1-mass 1 and no recovered keeps stepping under the identity update for all 2
periods of a 2-period horizon. -/
theorem mdp_run_stopping_witness :
    mdpRun (fun s => s) 1 5
        ({ E1 := fun _ _ => 0, E2 := fun _ _ => 0, A := fun _ _ => 0,
           I := fun _ _ => 0, R := fun _ _ => 1 } : MDPState 1 1)
      = [{ E1 := fun _ _ => 0, E2 := fun _ _ => 0, A := fun _ _ => 0,
           I := fun _ _ => 0, R := fun _ _ => 1 }] ∧
    (mdpRun (fun s => s) 1 2
        ({ E1 := fun _ _ => 1, E2 := fun _ _ => 0, A := fun _ _ => 0,
           I := fun _ _ => 0, R := fun _ _ => 0 } : MDPState 1 1)).length = 3 := by
  constructor
  · exact (mdp_run_stopping (fun s => s) 1).1 _ 5
      (by simp [mdpStop, Fin.sum_univ_one])
  · exact (mdp_run_stopping (fun s => s) 1).2.2 _ 2
      (by
        intro k hk
        simp only [Function.iterate_fixed, mdpStop, Fin.sum_univ_one]
        norm_num)

/-! ### Construction-time policy lookup and historical vaccine supply
(`MarkovDecisionProcess.__init__` 32-39, `get_exogenous_information` 61-83) -/

/-- The six policy names of the dispatch dict in `__init__`. -/
def policyNames : List String :=
  ["no_vaccines", "random", "susceptible_based", "infection_based",
   "adults_first", "oldest_first"]

/-- The dict lookup `{...}[policy]` performed at construction: `none` models
the `KeyError` raised for a name that is not a key — construction fails before
any simulation starts. -/
def lookupPolicy (nm : String) : Option PolicyTag :=
  if nm = "no_vaccines" then some .noVaccines
  else if nm = "random" then some .random
  else if nm = "susceptible_based" then some .susceptibleBased
  else if nm = "infection_based" then some .infectionBased
  else if nm = "adults_first" then some .adultsFirst
  else if nm = "oldest_first" then some .oldestFirst
  else none

/-- A row of `historic_data`: (date, vaccine_supply_new).  Dates are modeled
as integers (days); the mask `(date > today) & (date <= end_of_decision_period)`
is the pandas filter of `get_exogenous_information`. -/
def supplyRowsInPeriod (rows : List (ℤ × ℚ)) (today endP : ℤ) : List (ℤ × ℚ) :=
  rows.filter (fun rw => decide (today < rw.1) && decide (rw.1 ≤ endP))

/-- The vaccine supply computed by `get_exogenous_information`: zero when the
filtered week data is empty, otherwise `int(sum/2)` (two doses per supplied
unit, truncated to an integer). -/
def getVaccineSupply (rows : List (ℤ × ℚ)) (today endP : ℤ) : ℚ :=
  if supplyRowsInPeriod rows today endP = [] then 0
  else (pyInt (((supplyRowsInPeriod rows today endP).map Prod.snd).sum / 2) : ℚ)

/-- C9: an unknown policy name makes construction fail (the dict lookup raises
`KeyError` exactly for names outside the six registered ones), and a decision
period whose date range matches no historical vaccine-supply rows yields zero
supply instead of an error. -/
theorem policy_lookup_and_missing_supply :
    (∀ nm : String, lookupPolicy nm = none ↔ nm ∉ policyNames) ∧
    (∀ (rows : List (ℤ × ℚ)) (today endP : ℤ),
      supplyRowsInPeriod rows today endP = [] → getVaccineSupply rows today endP = 0) := by
  constructor
  · intro nm
    simp only [lookupPolicy, policyNames, List.mem_cons, List.not_mem_nil]
    split_ifs <;> simp_all
  · intro rows today endP hempty
    rw [getVaccineSupply, if_pos hempty]

/-- Witness for C9: the name "weighted" is not a registered policy, so lookup
fails; and a singleton supply table dated before the decision period gives
zero supply. -/
theorem policy_lookup_and_missing_supply_witness :
    lookupPolicy "weighted" = none ∧ getVaccineSupply [(5, 10)] 10 17 = 0 := by
  constructor
  · exact (policy_lookup_and_missing_supply.1 "weighted").mpr (by decide)
  · exact policy_lookup_and_missing_supply.2 [(5, 10)] 10 17 (by decide)

end VaccineAllocation
